import Mathlib

/-!
Verification of the Dokploy GitHub Action (TypeScript) deployment core.

Shallow embedding conventions:
* TS `string | undefined` fields become `Option String`; numeric optional
  fields become `Option Int` (integer inputs) or `Option Rat` (CPU cores,
  which the action parses as fractional values).
* JavaScript truthiness on these fields is modelled explicitly:
  `undefined` and `""` are falsy for strings, `undefined` and `0` are falsy
  for numbers.
* `Math.round` is modelled on rationals as `⌊q + 1/2⌋` (round half up),
  which agrees with JavaScript on every value the action can produce.
* JS string scanning builtins used by the code (`split`, `replace` with a
  global literal pattern, `substring`, trimming regexes) are re-implemented
  over `List Char`.
-/

deriving instance DecidableEq for Except

namespace Dokploy

/-- JS truthiness of a `string | undefined` value: `undefined` and `""` are falsy. -/
def strTruthy : Option String → Bool
  | none => false
  | some s => s ≠ ""

/-- JS `a || b` for strings: keep `a` when truthy, else `b`. -/
def strOr (a : Option String) (b : String) : String :=
  match a with
  | none => b
  | some s => if s = "" then b else s

/-- JS truthiness of a `number | undefined` value: `undefined` and `0` are falsy. -/
def intTruthy : Option Int → Bool
  | none => false
  | some n => n ≠ 0

/-- JS truthiness for the fractional CPU fields. -/
def ratTruthy : Option Rat → Bool
  | none => false
  | some q => q ≠ 0

/-- JS `a || b` for optional numbers (`0` falls through to the default). -/
def intOr (a : Option Int) (b : Int) : Int :=
  match a with
  | none => b
  | some n => if n = 0 then b else n

/-- JS `Math.round` on a rational: round half toward positive infinity. -/
def jsRound (q : Rat) : Int := ⌊q + 1/2⌋

/-- The slice of `ActionInputs` (src/types/dokploy.ts) consumed by the
configuration builders and the orchestrator steps under study. -/
structure ActionInputs where
  dockerImage : String := ""
  environmentName : Option String := none
  applicationTitle : Option String := none
  applicationDescription : Option String := none
  containerName : Option String := none
  port : Option Int := none
  targetPort : Option Int := none
  restartPolicy : Option String := none
  memoryLimit : Option Int := none
  memoryReservation : Option Int := none
  cpuLimit : Option Rat := none
  cpuReservation : Option Rat := none
  replicas : Option Int := none
  env : Option String := none
  envFromJson : Option String := none
  domainHost : Option String := none
  domainPath : Option String := none
  applicationPort : Option Int := none
  domainHttps : Option Bool := none
  sslCertificateType : Option String := none
  domainStripPath : Option Bool := none
  forceDomainRecreation : Option Bool := none
  deriving Repr, DecidableEq

/-! ### JS string primitives used by the container-name templating code -/

/-- `pat.isPrefixOf l` as a Bool over char lists. -/
def isPre (pat l : List Char) : Bool := List.isPrefixOf pat l

/-- One fuel-indexed pass of JS `String.prototype.replace` with a global
literal pattern: scan left to right, emit the replacement at each match and
continue after it (replacements are not rescanned). Fuel bounds the number of
scanning steps; one unit is consumed per step and each step consumes at least
one input char, so fuel `l.length` is always enough. -/
def replaceAux (pat rep : List Char) : List Char → Nat → List Char
  | l, 0 => l
  | [], _ + 1 => []
  | c :: rest, fuel + 1 =>
    if isPre pat (c :: rest) then
      rep ++ replaceAux pat rep ((c :: rest).drop pat.length) fuel
    else
      c :: replaceAux pat rep rest fuel

/-- JS `s.replace(/pat/g, rep)` for a literal pattern. -/
def jsReplaceAll (s pat rep : String) : String :=
  String.mk (replaceAux pat.data rep.data s.data s.data.length)

/-- JS `String.prototype.split` with a single-character separator
(`"a::b".split(':') = ["a", "", "b"]`, `"".split(':') = [""]`). -/
def splitOnChar (sep : Char) : List Char → List (List Char)
  | [] => [[]]
  | c :: rest =>
    match splitOnChar sep rest with
    | [] => [[c]]
    | h :: t => if c = sep then [] :: h :: t else (c :: h) :: t

/-- Characters admitted by the sanitizer regex `[a-zA-Z0-9._-]`. -/
def validNameChar (c : Char) : Bool :=
  ('a' ≤ c ∧ c ≤ 'z') ∨ ('A' ≤ c ∧ c ≤ 'Z') ∨ ('0' ≤ c ∧ c ≤ '9') ∨
    c = '.' ∨ c = '_' ∨ c = '-'

/-- A leading/trailing character stripped by `[.-]+`. -/
def dotDash (c : Char) : Bool := c = '.' ∨ c = '-'

/-- Drop a trailing run of characters satisfying `p` (JS `replace(/[.-]+$/, '')`). -/
def dropTrail (p : Char → Bool) (l : List Char) : List Char :=
  (l.reverse.dropWhile p).reverse

/-- JS `/^v\d/.test s`: first char `v`, second a digit. -/
def testVDigit : List Char → Bool
  | 'v' :: d :: _ => d.isDigit
  | _ => false

/-- JS `/\d+\.\d+/.test s`: some digit, dot, digit occur consecutively. -/
def testDigitsDotDigits : List Char → Bool
  | a :: b :: c :: rest =>
    (a.isDigit ∧ b = '.' ∧ c.isDigit) ∨ testDigitsDotDigits (b :: c :: rest)
  | _ => false

/-- `inputs.dockerImage?.split(':')[1] || 'latest'`: the second `:`-separated
segment of the image reference, defaulting to `"latest"` when the segment is
missing or empty. -/
def imageVersion (dockerImage : String) : List Char :=
  match (splitOnChar ':' dockerImage.data).get? 1 with
  | none => "latest".data
  | some v => if v = [] then "latest".data else v

/-- Template substitution step of the container-name builder:
`{app}`, `{version}`, `{env}` are replaced globally. -/
def substituteTemplate (template name dockerImage : String)
    (environmentName : Option String) : String :=
  jsReplaceAll
    (jsReplaceAll
      (jsReplaceAll template "{app}" name)
      "{version}" (String.mk (imageVersion dockerImage)))
    "{env}" (strOr environmentName "production")

/-- Sanitization step: invalid chars become `-`, then leading and trailing
runs of `.`/`-` are stripped. -/
def sanitizeName (s : String) : List Char :=
  dropTrail dotDash ((s.data.map (fun c => if validNameChar c then c else '-')).dropWhile dotDash)

/-- The last `-`-separated part of the sanitized name
(`parts[parts.length - 1]`). -/
def lastDashPart (l : List Char) : List Char :=
  (splitOnChar '-' l).getLastD []

/-- Whether the 63-char truncation takes the version-preserving branch:
the name is over the limit and its last `-`-part is nonempty and
version-looking. -/
def versionBranch (l : List Char) : Bool :=
  63 < l.length ∧ lastDashPart l ≠ [] ∧
    (testVDigit (lastDashPart l) ∨ testDigitsDotDigits (lastDashPart l))

/-- Truncation step (DNS label limit 63): plain `substring(0, 63)` normally;
when the last `-`-part looks like a version, truncate the part before it to
`63 - lastPart.length - 1` chars and re-append `-lastPart`; in either case
strip any trailing `.`/`-` runs left by the cut. -/
def truncateName (l : List Char) : List Char :=
  if 63 < l.length then
    let lastPart := lastDashPart l
    if lastPart ≠ [] ∧ (testVDigit lastPart ∨ testDigitsDotDigits lastPart) then
      dropTrail dotDash (l.take (63 - lastPart.length - 1) ++ '-' :: lastPart)
    else
      dropTrail dotDash (l.take 63)
  else l

/-- The container-name pipeline of `buildApplicationConfig`
(src/config.ts lines 27–72): substitute, sanitize, truncate. -/
def buildContainerName (template name dockerImage : String)
    (environmentName : Option String) : String :=
  String.mk (truncateName (sanitizeName (substituteTemplate template name dockerImage environmentName)))

/-- The application-creation payload shape produced by
`buildApplicationConfig` (fields of `Partial<Application>` that the builder
can set). CPU fields hold the converted nano-core integers. -/
structure AppConfig where
  name : String
  projectId : String
  environmentId : String
  serverId : String
  applicationStatus : String
  title : String
  description : String
  port : Int
  targetPort : Int
  restartPolicy : String
  appName : Option String
  memoryLimit : Option Int
  memoryReservation : Option Int
  cpuLimit : Option Int
  cpuReservation : Option Int
  replicas : Option Int
  deriving Repr, DecidableEq

/-- `buildApplicationConfig` (src/config.ts lines 7–96). Resource fields are
guarded by JS truthiness (`if (inputs.memoryLimit)` …), so `0` is treated
like an absent input. Memory limits are copied through unchanged (the source
performs no MB→bytes conversion); CPU limits are multiplied by 1e9 and
rounded. -/
def buildApplicationConfig (name projectId environmentId serverId : String)
    (inputs : ActionInputs) : AppConfig :=
  { name := name
    projectId := projectId
    environmentId := environmentId
    serverId := serverId
    applicationStatus := "idle"
    title := strOr inputs.applicationTitle name
    description := strOr inputs.applicationDescription ("Automated deployment: " ++ name)
    port := intOr inputs.port 8080
    targetPort := intOr inputs.targetPort 8080
    restartPolicy := strOr inputs.restartPolicy "unless-stopped"
    appName :=
      match inputs.containerName with
      | none => none
      | some template =>
        if template = "" then none
        else some (buildContainerName template name inputs.dockerImage inputs.environmentName)
    memoryLimit := if intTruthy inputs.memoryLimit then inputs.memoryLimit else none
    memoryReservation := if intTruthy inputs.memoryReservation then inputs.memoryReservation else none
    cpuLimit :=
      match inputs.cpuLimit with
      | none => none
      | some c => if c = 0 then none else some (jsRound (c * 1000000000))
    cpuReservation :=
      match inputs.cpuReservation with
      | none => none
      | some c => if c = 0 then none else some (jsRound (c * 1000000000))
    replicas := if intTruthy inputs.replicas then inputs.replicas else none }

/-! ### Environment-variable blob builder (src/config.ts lines 117–140)

`JSON.parse` followed by `Object.entries(obj).map(([k, v]) => `k=v`)` is
modelled by an abstract parse function returning either the entry list with
values already stringified, or the parse-error message used to build the
thrown error. -/

/-- Render parsed JSON entries as the `KEY=VALUE` newline blob. -/
def renderEntries (entries : List (String × String)) : String :=
  String.intercalate "\n" (entries.map (fun kv => kv.1 ++ "=" ++ kv.2))

/-- `parseEnvironmentVariables` (src/config.ts lines 117–140), parameterized
by the `JSON.parse`+stringify collaborator `parseJson`. -/
def parseEnvironmentVariables
    (parseJson : String → Except String (List (String × String)))
    (inputs : ActionInputs) : Except String String :=
  if strTruthy inputs.envFromJson then
    match parseJson (inputs.envFromJson.getD "") with
    | .ok obj => .ok (renderEntries obj)
    | .error e => .error ("Failed to parse env-from-json: " ++ e)
  else if strTruthy inputs.env then
    .ok (inputs.env.getD "")
  else
    .ok ""

/-! ### CPU-limit parser (src/utils/helpers.ts lines 33–61)

`parseInt(x, 10)` and `parseFloat(x)` are modelled by prefix parsers over the
decimal syntax JS accepts for finite numbers: optional sign, digits (with an
optional fraction and exponent for `parseFloat`), with any trailing
non-numeric characters ignored; no numeric prefix at all gives `NaN`,
modelled as `none`. -/

/-- JS whitespace stripped by `String.prototype.trim` (the characters that
can occur in this action's inputs). -/
def jsWhitespace (c : Char) : Bool :=
  c = ' ' ∨ c = '\t' ∨ c = '\n' ∨ c = '\r'

/-- JS `s.trim()` over the char list. -/
def jsTrim (l : List Char) : List Char :=
  ((l.dropWhile jsWhitespace).reverse.dropWhile jsWhitespace).reverse

/-- Numeric value of a digit run. -/
def digitsVal (l : List Char) : Nat :=
  l.foldl (fun a c => 10 * a + (c.toNat - '0'.toNat)) 0

/-- JS `parseInt(s, 10)`: optional sign then a nonempty digit run; trailing
characters ignored; `NaN` (here `none`) when no digits are found. -/
def jsParseInt (l : List Char) : Option Int :=
  let signAndRest : Int × List Char :=
    match l.dropWhile jsWhitespace with
    | '+' :: r => (1, r)
    | '-' :: r => (-1, r)
    | r => (1, r)
  let ds := signAndRest.2.takeWhile Char.isDigit
  if ds = [] then none else some (signAndRest.1 * digitsVal ds)

/-- Syntactic decomposition step of JS `parseFloat(s)`: sign, integer
digits, fraction digits, exponent; `none` when neither integer nor fraction
digits are present (`NaN`); a malformed exponent is ignored; trailing
characters are ignored. -/
def floatParts (l : List Char) : Option (Int × List Char × List Char × Int) :=
  let signAndRest : Int × List Char :=
    match l.dropWhile jsWhitespace with
    | '+' :: r => (1, r)
    | '-' :: r => (-1, r)
    | r => (1, r)
  let intDigits := signAndRest.2.takeWhile Char.isDigit
  let afterInt := signAndRest.2.dropWhile Char.isDigit
  let fracDigits :=
    match afterInt with
    | '.' :: r => r.takeWhile Char.isDigit
    | _ => []
  let afterFrac :=
    match afterInt with
    | '.' :: r => r.dropWhile Char.isDigit
    | _ => afterInt
  if intDigits = [] ∧ fracDigits = [] then none
  else
    let expo : Int :=
      match afterFrac with
      | 'e' :: r | 'E' :: r =>
        let esignAndRest : Int × List Char :=
          match r with
          | '+' :: r2 => (1, r2)
          | '-' :: r2 => (-1, r2)
          | r2 => (1, r2)
        let ed := esignAndRest.2.takeWhile Char.isDigit
        if ed = [] then 0 else esignAndRest.1 * digitsVal ed
      | _ => 0
    some (signAndRest.1, intDigits, fracDigits, expo)

/-- JS `parseFloat(s)` on finite decimal syntax: the numeric value of
`floatParts`. -/
def jsParseFloat (l : List Char) : Option Rat :=
  match floatParts l with
  | none => none
  | some (sgn, intDigits, fracDigits, expo) =>
    some ((sgn : Rat) *
      ((digitsVal intDigits : Rat) + (digitsVal fracDigits : Rat) / ((10 ^ fracDigits.length : Nat) : Rat)) *
      (10 : Rat) ^ expo)

/-- The `m`/`M` suffix test `cleanValue.endsWith('m') || cleanValue.endsWith('M')`. -/
def hasMilliSuffix (l : List Char) : Bool :=
  l.getLast? = some 'm' || l.getLast? = some 'M'

/-- `parseCpuLimit` (src/utils/helpers.ts lines 33–61): `none`/`""` yield no
value; an `m`/`M` suffix selects integer-milli parsing divided by 1000
(`slice(0, -1)` is `dropLast`); otherwise float parsing; a `NaN` from either
parse throws the error naming the offending literal. -/
def parseCpuLimit (value : Option String) : Except String (Option Rat) :=
  match value with
  | none => .ok none
  | some v =>
    if v = "" then .ok none
    else
      let cleanValue := jsTrim v.data
      if hasMilliSuffix cleanValue then
        match jsParseInt cleanValue.dropLast with
        | none => .error ("CPU limit must be a valid number, got: " ++ v)
        | some milliValue => .ok (some ((milliValue : Rat) / 1000))
      else
        match jsParseFloat cleanValue with
        | none => .error ("CPU limit must be a valid number, got: " ++ v)
        | some parsed => .ok (some parsed)

/-- `validateReplicas` (src/validators.ts lines 147–166): rejects negative
counts; `0` is accepted as the documented "stop the application" value (the
high-count branch only emits a warning). -/
def validateReplicas (value : Option Int) (fieldName : String) : Except String Unit :=
  match value with
  | none => .ok ()
  | some v =>
    if v < 0 then
      .error (fieldName ++ " must be non-negative (got " ++ toString v ++ ")")
    else
      .ok ()

/-! ### Step 4 — environment resolution (src/index.ts lines 86–118) -/

/-- The fields of a remote `Environment` record that Step 4 reads. -/
structure EnvRec where
  environmentId : Option String
  id : Option String
  name : String
  deriving Repr, DecidableEq

/-- JS `a || b` on two optional strings, keeping the second operand as-is
when the first is falsy. -/
def strOrElse (a b : Option String) : Option String :=
  if strTruthy a then a else b

/-- ASCII lowercasing of one char, as `String.prototype.toLowerCase` acts on
the names in play. -/
def charToLower (c : Char) : Char :=
  if 'A' ≤ c ∧ c ≤ 'Z' then Char.ofNat (c.toNat + 32) else c

/-- JS `s.toLowerCase()`. -/
def jsToLowerCase (s : String) : String :=
  String.mk (s.data.map charToLower)

/-- Step 4 of `run`: resolve the environment id. `defaultEnvironmentId` is
the implicit environment id captured from a fresh `project.create` (absent
when the project pre-existed); `createdEnvironmentId` abstracts the id a
genuine `environment.create` call would return. The boolean reports whether
`environment.create` was called. -/
def resolveEnvironment (inputEnvironmentId environmentName : Option String)
    (autoCreate : Bool) (defaultEnvironmentId : Option String)
    (projectEnvironments : List EnvRec) (createdEnvironmentId : String) :
    Except String (Option String × Bool) :=
  if ¬ strTruthy inputEnvironmentId ∧ strTruthy environmentName then
    let name := environmentName.getD ""
    match projectEnvironments.find? (fun e => e.name = name) with
    | some existing => .ok (strOrElse existing.environmentId existing.id, false)
    | none =>
      if autoCreate then
        if strTruthy defaultEnvironmentId ∧ jsToLowerCase name = "production" then
          .ok (defaultEnvironmentId, false)
        else
          .ok (some createdEnvironmentId, true)
      else
        .error ("Environment \"" ++ name ++ "\" not found and auto-create is disabled")
  else
    .ok (inputEnvironmentId, false)

/-! ### Step 9 — domain configuration (src/index.ts lines 260–329) -/

/-- The fields of a remote `Domain` record Step 9 reads. `createdAtMs` is
the epoch value of `new Date(d.createdAt || 0).getTime()`, with the date
parsing abstracted to the resulting milliseconds (0 when `createdAt` is
absent). -/
structure DomainRec where
  domainId : Option String
  id : Option String
  host : String
  path : Option String
  port : Option Int
  createdAtMs : Nat
  deriving Repr, DecidableEq

/-- The domain payload produced by `buildDomainConfig`. -/
structure DomainCfg where
  host : String
  path : String
  port : Int
  https : Bool
  certificateType : String
  stripPath : Bool
  deriving Repr, DecidableEq

/-- `buildDomainConfig` (src/config.ts lines 98–115). -/
def buildDomainConfig (inputs : ActionInputs) : Option DomainCfg :=
  if ¬ strTruthy inputs.domainHost then none
  else
    some
      { host := inputs.domainHost.getD ""
        path := strOr inputs.domainPath "/"
        port := intOr inputs.applicationPort (intOr inputs.targetPort 8080)
        https := inputs.domainHttps ≠ some false
        certificateType := strOr inputs.sslCertificateType "letsencrypt"
        stripPath := inputs.domainStripPath.getD false }

/-- The exact-match predicate of Step 9: equality on the full
(host, port, path) triple. -/
def tripleMatch (d : DomainRec) (cfg : DomainCfg) : Bool :=
  d.host = cfg.host ∧ d.port = some cfg.port ∧ d.path = some cfg.path

/-- `d.domainId || d.id || ''`. -/
def domIdOf (d : DomainRec) : String := strOr d.domainId (strOr d.id "")

/-- Stable insert for descending creation time (the earlier-listed element
stays first on ties, as in the stable JS `Array.prototype.sort`). -/
def insertDesc (d : DomainRec) : List DomainRec → List DomainRec
  | [] => [d]
  | x :: xs =>
    if x.createdAtMs ≤ d.createdAtMs then d :: x :: xs else x :: insertDesc d xs

/-- `exactMatches.sort((a, b) => dateB - dateA)`: stable sort by creation
time, latest first. -/
def sortByCreatedDesc : List DomainRec → List DomainRec
  | [] => []
  | d :: rest => insertDesc d (sortByCreatedDesc rest)

/-- Remote calls and pauses Step 9 performs, in order. -/
inductive DomainEvent where
  | removeDomain (domainId : String)
  | sleepMs (ms : Nat)
  | createDomain (cfg : DomainCfg)
  | updateDomain (domainId : String) (cfg : DomainCfg)
  deriving Repr, DecidableEq

/-- Outcome of Step 9: its remote-call trace, the record the
create/update/recreate decision treated as "the existing domain", and the
records deleted by the duplicate cleanup. -/
structure DomainStepResult where
  events : List DomainEvent
  existingDomain : Option DomainRec
  deleted : List DomainRec
  deriving Repr, DecidableEq

/-- Step 9 of `run` after `getDomains`: duplicate cleanup followed by the
create/update/recreate decision. `Array.prototype.sort` sorts in place, so
after the cleanup branch `exactMatches[0]` is the head of the sorted list. -/
def domainStep (existingDomains : List DomainRec) (cfg : DomainCfg) (force : Bool) :
    DomainStepResult :=
  let exactMatches := existingDomains.filter (fun d => tripleMatch d cfg)
  let sorted := if 1 < exactMatches.length then sortByCreatedDesc exactMatches else exactMatches
  let deleted := if 1 < exactMatches.length then sorted.drop 1 else []
  let cleanupEvents := deleted.flatMap (fun d => [.removeDomain (domIdOf d), .sleepMs 1000])
  let existingDomain := sorted.head?
  let decisionEvents : List DomainEvent :=
    match existingDomain with
    | some d =>
      if force then
        [.removeDomain (domIdOf d), .sleepMs 2000, .createDomain cfg]
      else
        [.updateDomain (domIdOf d) cfg]
    | none => [.createDomain cfg]
  { events := cleanupEvents ++ decisionEvents
    existingDomain := existingDomain
    deleted := deleted }

/-! ### Steps 12–13 — wait and health check (src/index.ts lines 354–391) -/

/-- Observable actions of Steps 12–13. `quickHealthProbe` and
`waitForDeploymentPoll` are listed so their absence from the code's trace is
expressible. -/
inductive RunEvent where
  | sleepMs (ms : Int)
  | quickHealthProbe
  | waitForDeploymentPoll
  | healthCheck (url : String)
  | setOutput (key value : String)
  | failWith (msg : String)
  deriving Repr, DecidableEq

/-- Steps 12–13 of `run`: when wait-for-deployment is enabled, sleep
`min(60000, timeout*1000/5)` ms (timeout defaulting to 300 via `||`); when
health-check is enabled and a deployment URL is known, run the full health
check and handle its result; otherwise mark the health check skipped. -/
def step12And13 (waitForDeployment : Bool) (deploymentTimeout : Option Int)
    (healthCheckEnabled : Bool) (deploymentUrl : Option String)
    (failOnHealthCheckError : Bool) (healthStatus : String) : List RunEvent :=
  (if waitForDeployment then
    [.sleepMs (min 60000 (intOr deploymentTimeout 300 * 200))]
  else []) ++
  (if healthCheckEnabled ∧ deploymentUrl.isSome then
    [.healthCheck (deploymentUrl.getD ""), .setOutput "health-check-status" healthStatus] ++
    (if healthStatus = "unhealthy" then
      [.setOutput "deployment-status" "failed"] ++
      (if failOnHealthCheckError then
        [.failWith "Health check failed - deployment marked as failed"]
      else [])
    else [])
  else [.setOutput "health-check-status" "skipped"])

/-! ### `DokployClient.waitForDeployment` (src/client/dokploy-client.ts lines 915–954) -/

/-- Deployment lifecycle states (src/types/dokploy.ts). -/
inductive DepStatus where
  | pending
  | deploying
  | completed
  | failed
  deriving Repr, DecidableEq

/-- The fields of a `Deployment` the polling loop reads (`status` and `logs`
are optional in the remote schema). -/
structure DeploymentRec where
  status : Option DepStatus
  logs : Option String
  deriving Repr, DecidableEq

/-- The errors `waitForDeployment` can throw. `fuelExhausted` marks the
fuel-model's unreachable branch; the theorems conclude specific other
results, which implies the fuel bound suffices. -/
inductive WaitError where
  | deployFailed (logs : Option String)
  | timeoutExpired (timeoutSeconds : Nat) (lastStatus : Option DepStatus)
  | fuelExhausted
  deriving Repr, DecidableEq

/-- String form of a possibly-absent status, as interpolated into the
timeout message. -/
def statusText : Option DepStatus → String
  | none => "undefined"
  | some .pending => "pending"
  | some .deploying => "deploying"
  | some .completed => "completed"
  | some .failed => "failed"

/-- The thrown error messages of the polling loop. -/
def renderWaitError : WaitError → String
  | .deployFailed _ => "Deployment failed - check logs above for details"
  | .timeoutExpired t s =>
    "Deployment timeout after " ++ toString t ++ "s (status: " ++ statusText s ++ ")"
  | .fuelExhausted => "fuel exhausted"

/-- The polling loop body. `getDeployment k` abstracts the fetch performed
on iteration `k`; time advances only across the inter-poll sleeps, so the
elapsed time checked on iteration `k` is `k * pollIntervalMs`. One fuel unit
is spent per iteration. -/
def waitLoop (getDeployment : Nat → DeploymentRec) (timeoutSeconds timeoutMs pollIntervalMs : Nat) :
    Nat → Nat → Except WaitError DeploymentRec
  | _, 0 => .error .fuelExhausted
  | k, fuel + 1 =>
    let deployment := getDeployment k
    if deployment.status = some .completed then .ok deployment
    else if deployment.status = some .failed then .error (.deployFailed deployment.logs)
    else if timeoutMs ≤ k * pollIntervalMs then
      .error (.timeoutExpired timeoutSeconds deployment.status)
    else
      waitLoop getDeployment timeoutSeconds timeoutMs pollIntervalMs (k + 1) fuel

/-- `waitForDeployment`: poll every `pollIntervalSeconds` until `completed`
(return), `failed` (throw with the deployment's logs), or the timeout
elapses (throw with the last observed status). The fuel
`timeoutMs / pollIntervalMs + 2` strictly exceeds the number of reachable
iterations whenever the poll interval is positive. -/
def waitForDeployment (getDeployment : Nat → DeploymentRec)
    (timeoutSeconds pollIntervalSeconds : Nat) : Except WaitError DeploymentRec :=
  waitLoop getDeployment timeoutSeconds (timeoutSeconds * 1000) (pollIntervalSeconds * 1000) 0
    (timeoutSeconds * 1000 / (pollIntervalSeconds * 1000) + 2)

/-! ## Evaluation lemmas shared by the claim proofs -/

/-- The milli branch of `parseCpuLimit`. -/
theorem parseCpuLimit_milli (v : String) (n : Int) (hv : v ≠ "")
    (hend : hasMilliSuffix (jsTrim v.data) = true)
    (hp : jsParseInt (jsTrim v.data).dropLast = some n) :
    parseCpuLimit (some v) = .ok (some ((n : Rat) / 1000)) := by
  simp [parseCpuLimit, hv, hend, hp]

/-- The float branch of `parseCpuLimit`. -/
theorem parseCpuLimit_float (v : String) (q : Rat) (hv : v ≠ "")
    (hend : hasMilliSuffix (jsTrim v.data) = false)
    (hp : jsParseFloat (jsTrim v.data) = some q) :
    parseCpuLimit (some v) = .ok (some q) := by
  simp [parseCpuLimit, hv, hend, hp]

/-- The milli-branch error of `parseCpuLimit`. -/
theorem parseCpuLimit_milli_err (v : String) (hv : v ≠ "")
    (hend : hasMilliSuffix (jsTrim v.data) = true)
    (hp : jsParseInt (jsTrim v.data).dropLast = none) :
    parseCpuLimit (some v) = .error ("CPU limit must be a valid number, got: " ++ v) := by
  simp [parseCpuLimit, hv, hend, hp]

/-- The float-branch error of `parseCpuLimit`. -/
theorem parseCpuLimit_float_err (v : String) (hv : v ≠ "")
    (hend : hasMilliSuffix (jsTrim v.data) = false)
    (hp : jsParseFloat (jsTrim v.data) = none) :
    parseCpuLimit (some v) = .error ("CPU limit must be a valid number, got: " ++ v) := by
  simp [parseCpuLimit, hv, hend, hp]

/-- `insertDesc` only rearranges. -/
theorem insertDesc_perm (d : DomainRec) (l : List DomainRec) :
    List.Perm (insertDesc d l) (d :: l) := by
  induction l with
  | nil => simp [insertDesc]
  | cons x xs ih =>
    simp only [insertDesc]
    split
    · exact List.Perm.refl _
    · exact (List.Perm.cons x ih).trans (List.Perm.swap d x xs)

/-- `sortByCreatedDesc` is a permutation. -/
theorem sortByCreatedDesc_perm (l : List DomainRec) :
    List.Perm (sortByCreatedDesc l) l := by
  induction l with
  | nil => exact List.Perm.refl _
  | cons d rest ih =>
    exact (insertDesc_perm d (sortByCreatedDesc rest)).trans (List.Perm.cons d ih)

/-- `insertDesc` preserves descending order by creation time. -/
theorem insertDesc_pairwise (d : DomainRec) (l : List DomainRec)
    (h : l.Pairwise (fun a b => b.createdAtMs ≤ a.createdAtMs)) :
    (insertDesc d l).Pairwise (fun a b => b.createdAtMs ≤ a.createdAtMs) := by
  induction l with
  | nil => simp [insertDesc]
  | cons x xs ih =>
    simp only [insertDesc]
    split
    · rename_i hxd
      refine List.Pairwise.cons ?_ h
      intro y hy
      rcases List.mem_cons.mp hy with rfl | hy
      · exact hxd
      · exact le_trans ((List.pairwise_cons.mp h).1 y hy) hxd
    · rename_i hxd
      push_neg at hxd
      refine List.Pairwise.cons ?_ (ih (List.pairwise_cons.mp h).2)
      intro y hy
      have := (insertDesc_perm d xs).mem_iff.mp hy
      rcases List.mem_cons.mp this with rfl | hy2
      · exact le_of_lt hxd
      · exact (List.pairwise_cons.mp h).1 y hy2

/-- `sortByCreatedDesc` sorts by creation time, latest first. -/
theorem sortByCreatedDesc_pairwise (l : List DomainRec) :
    (sortByCreatedDesc l).Pairwise (fun a b => b.createdAtMs ≤ a.createdAtMs) := by
  induction l with
  | nil => simp [sortByCreatedDesc]
  | cons d rest ih => exact insertDesc_pairwise d _ ih

/-- The cleanup trace has two events per deleted record. -/
theorem flatMap_two_length (l : List DomainRec) :
    (l.flatMap (fun d => [DomainEvent.removeDomain (domIdOf d), .sleepMs 1000])).length =
      2 * l.length := by
  induction l with
  | nil => rfl
  | cons d rest ih => simp [List.flatMap_cons, ih]; omega

/-- The cleanup trace contains no `createDomain` call. -/
theorem createDomain_not_mem_cleanup (c : DomainCfg) (l : List DomainRec) :
    DomainEvent.createDomain c ∉
      l.flatMap (fun d => [DomainEvent.removeDomain (domIdOf d), .sleepMs 1000]) := by
  induction l with
  | nil => simp
  | cons d rest ih => simp [List.flatMap_cons, ih]

/-! ## Claim theorems -/

/-- C1: the claim states that `buildApplicationConfig` converts a present
memory input `m` (MB) to `m * 1048576` bytes in the payload. The source
copies the MB value through unchanged (while it does convert CPU to
`round(c * 1e9)` nano-cores), contradicting the repository's own tests
(`__tests__/config.test.ts`, "should convert memory MB to bytes for Docker
Swarm API", which expects 256 MB ↦ 268435456). This theorem evaluates the
embedded builder at the failing input. -/
theorem C1_memory_passthrough_eval :
    (buildApplicationConfig "web" "proj" "env" "srv"
      { memoryLimit := some 256, memoryReservation := some 128,
        cpuLimit := some 2, cpuReservation := some (1/2) }).memoryLimit = some 256 ∧
    (buildApplicationConfig "web" "proj" "env" "srv"
      { memoryLimit := some 256, memoryReservation := some 128,
        cpuLimit := some 2, cpuReservation := some (1/2) }).memoryReservation = some 128 ∧
    (buildApplicationConfig "web" "proj" "env" "srv"
      { memoryLimit := some 256, memoryReservation := some 128,
        cpuLimit := some 2, cpuReservation := some (1/2) }).cpuLimit = some 2000000000 ∧
    (buildApplicationConfig "web" "proj" "env" "srv"
      { memoryLimit := some 256, memoryReservation := some 128,
        cpuLimit := some 2, cpuReservation := some (1/2) }).cpuReservation = some 500000000 ∧
    (some (256 : Int) ≠ some ((256 : Int) * 1048576)) := by
  refine ⟨by decide, by decide, ?_, ?_, by decide⟩
  · simp only [buildApplicationConfig]
    norm_num [jsRound]
  · simp only [buildApplicationConfig]
    norm_num [jsRound]

/-- C10: the truthiness guards of `buildApplicationConfig` treat a `0`
resource input like an absent one, so every zero field is omitted from the
payload, even though `validateReplicas` accepts `0` as the legitimate "stop
the application" value. -/
theorem C10_zero_resources_omitted (name projectId environmentId serverId : String)
    (inputs : ActionInputs) :
    (inputs.memoryLimit = some 0 →
      (buildApplicationConfig name projectId environmentId serverId inputs).memoryLimit = none) ∧
    (inputs.memoryReservation = some 0 →
      (buildApplicationConfig name projectId environmentId serverId inputs).memoryReservation = none) ∧
    (inputs.cpuLimit = some 0 →
      (buildApplicationConfig name projectId environmentId serverId inputs).cpuLimit = none) ∧
    (inputs.cpuReservation = some 0 →
      (buildApplicationConfig name projectId environmentId serverId inputs).cpuReservation = none) ∧
    (inputs.replicas = some 0 →
      (buildApplicationConfig name projectId environmentId serverId inputs).replicas = none) ∧
    validateReplicas (some 0) "replicas" = .ok () := by
  refine ⟨fun h => ?_, fun h => ?_, fun h => ?_, fun h => ?_, fun h => ?_, by decide⟩ <;>
    simp [buildApplicationConfig, intTruthy, h]

/-- Closed instance of `C10_zero_resources_omitted` at an input whose five
resource fields are all `0`. -/
theorem C10_zero_resources_omitted_witness :
    (buildApplicationConfig "web" "p" "e" "s"
      { memoryLimit := some 0, memoryReservation := some 0, cpuLimit := some 0,
        cpuReservation := some 0, replicas := some 0 }).memoryLimit = none ∧
    (buildApplicationConfig "web" "p" "e" "s"
      { memoryLimit := some 0, memoryReservation := some 0, cpuLimit := some 0,
        cpuReservation := some 0, replicas := some 0 }).replicas = none ∧
    validateReplicas (some 0) "replicas" = .ok () := by
  obtain ⟨h1, h2, h3, h4, h5, h6⟩ := C10_zero_resources_omitted "web" "p" "e" "s"
    { memoryLimit := some 0, memoryReservation := some 0, cpuLimit := some 0,
      cpuReservation := some 0, replicas := some 0 }
  exact ⟨h1 rfl, h5 rfl, h6⟩

/-- C9: `parseCpuLimit` accepts plain decimals (parsed as a float) and the
`m`/`M` milli shorthand (integer numerator over 1000); empty or absent input
yields no value; content that is `NaN` under the applicable JS parse throws
the error naming the offending literal. -/
theorem C9_parseCpuLimit_spec :
    parseCpuLimit (some "500m") = .ok (some (1/2)) ∧
    parseCpuLimit (some "1000m") = .ok (some 1) ∧
    parseCpuLimit (some "0.25") = .ok (some (1/4)) ∧
    parseCpuLimit (some "2") = .ok (some 2) ∧
    parseCpuLimit (some "1.0") = .ok (some 1) ∧
    parseCpuLimit (some "500M") = .ok (some (1/2)) ∧
    parseCpuLimit none = .ok none ∧
    parseCpuLimit (some "") = .ok none ∧
    parseCpuLimit (some "abc") = .error "CPU limit must be a valid number, got: abc" ∧
    (∀ s n, s ≠ "" → hasMilliSuffix (jsTrim s.data) = true →
      jsParseInt (jsTrim s.data).dropLast = some n →
      parseCpuLimit (some s) = .ok (some ((n : Rat) / 1000))) ∧
    (∀ s q, s ≠ "" → hasMilliSuffix (jsTrim s.data) = false →
      jsParseFloat (jsTrim s.data) = some q →
      parseCpuLimit (some s) = .ok (some q)) ∧
    (∀ s, s ≠ "" → hasMilliSuffix (jsTrim s.data) = true →
      jsParseInt (jsTrim s.data).dropLast = none →
      parseCpuLimit (some s) = .error ("CPU limit must be a valid number, got: " ++ s)) ∧
    (∀ s, s ≠ "" → hasMilliSuffix (jsTrim s.data) = false →
      jsParseFloat (jsTrim s.data) = none →
      parseCpuLimit (some s) = .error ("CPU limit must be a valid number, got: " ++ s)) := by
  have h500 := parseCpuLimit_milli "500m" 500 (by decide) (by decide) (by decide)
  have h1000 := parseCpuLimit_milli "1000m" 1000 (by decide) (by decide) (by decide)
  have h500M := parseCpuLimit_milli "500M" 500 (by decide) (by decide) (by decide)
  have d0 : digitsVal ['0'] = 0 := by decide
  have d1 : digitsVal ['1'] = 1 := by decide
  have d2 : digitsVal ['2'] = 2 := by decide
  have d25 : digitsVal ['2', '5'] = 25 := by decide
  have dnil : digitsVal [] = 0 := by decide
  have hq : floatParts (jsTrim "0.25".data) = some (1, ['0'], ['2', '5'], 0) := by decide
  have h025 := parseCpuLimit_float "0.25" ((1 : Rat)/4) (by decide) (by decide)
    (by rw [jsParseFloat, hq]; norm_num [d0, d25])
  have h2p : floatParts (jsTrim "2".data) = some (1, ['2'], [], 0) := by decide
  have h2 := parseCpuLimit_float "2" (2 : Rat) (by decide) (by decide)
    (by rw [jsParseFloat, h2p]; norm_num [d2, dnil])
  have h10p : floatParts (jsTrim "1.0".data) = some (1, ['1'], ['0'], 0) := by decide
  have h10 := parseCpuLimit_float "1.0" (1 : Rat) (by decide) (by decide)
    (by rw [jsParseFloat, h10p]; norm_num [d1, d0])
  have habcp : floatParts (jsTrim "abc".data) = none := by decide
  have habc := parseCpuLimit_float_err "abc" (by decide) (by decide)
    (by rw [jsParseFloat, habcp])
  refine ⟨by rw [h500]; norm_num, by rw [h1000]; norm_num, h025, h2, h10,
    by rw [h500M]; norm_num, rfl, by decide, by simpa using habc,
    parseCpuLimit_milli, parseCpuLimit_float, parseCpuLimit_milli_err, parseCpuLimit_float_err⟩

/-- Closed instance of the general laws of `C9_parseCpuLimit_spec`:
`"250m"` parses through the milli branch. -/
theorem C9_parseCpuLimit_spec_witness :
    parseCpuLimit (some "250m") = .ok (some ((250 : Int) / 1000 : Rat)) := by
  have h := (C9_parseCpuLimit_spec).2.2.2.2.2.2.2.2.2.1 "250m" 250 (by decide) (by decide)
    (by decide)
  simpa using h

/-- C8: when a JSON environment-variable mapping is present, the blob built
by `parseEnvironmentVariables` derives solely from the parsed mapping (it is
invariant under any change to the raw `KEY=VALUE` string input); a JSON
parse failure is the fatal named error; with no source present the result is
the empty blob, not an error. -/
theorem C8_env_precedence
    (parseJson : String → Except String (List (String × String)))
    (inputs : ActionInputs) :
    (∀ s obj, inputs.envFromJson = some s → s ≠ "" → parseJson s = .ok obj →
      parseEnvironmentVariables parseJson inputs = .ok (renderEntries obj) ∧
      (∀ rawEnv, parseEnvironmentVariables parseJson { inputs with env := rawEnv } =
        parseEnvironmentVariables parseJson inputs)) ∧
    (∀ s e, inputs.envFromJson = some s → s ≠ "" → parseJson s = .error e →
      parseEnvironmentVariables parseJson inputs =
        .error ("Failed to parse env-from-json: " ++ e)) ∧
    (strTruthy inputs.envFromJson = false → strTruthy inputs.env = false →
      parseEnvironmentVariables parseJson inputs = .ok "") := by
  refine ⟨?_, ?_, ?_⟩
  · intro s obj hj hs hp
    constructor
    · simp [parseEnvironmentVariables, strTruthy, hj, hs, hp]
    · intro rawEnv
      simp [parseEnvironmentVariables, strTruthy, hj, hs, hp]
  · intro s e hj hs hp
    simp [parseEnvironmentVariables, strTruthy, hj, hs, hp]
  · intro h1 h2
    simp [parseEnvironmentVariables, h1, h2]

/-- Closed instance of `C8_env_precedence`: with both sources supplied, the
output comes from the JSON entries and is unchanged if the raw string is
replaced. -/
theorem C8_env_precedence_witness :
    parseEnvironmentVariables (fun _ => .ok [("NEW_KEY", "new_value")])
      { env := some "OLD_KEY=old_value", envFromJson := some "json-blob" } =
      .ok "NEW_KEY=new_value" ∧
    parseEnvironmentVariables (fun _ => .ok [("NEW_KEY", "new_value")])
      { env := some "RAW=other", envFromJson := some "json-blob" } =
      parseEnvironmentVariables (fun _ => .ok [("NEW_KEY", "new_value")])
        { env := some "OLD_KEY=old_value", envFromJson := some "json-blob" } := by
  have h := C8_env_precedence (fun _ => .ok [("NEW_KEY", "new_value")])
    { env := some "OLD_KEY=old_value", envFromJson := some "json-blob" }
  obtain ⟨hok, hinv⟩ := h.1 "json-blob" [("NEW_KEY", "new_value")] rfl
    (by decide) rfl
  exact ⟨by simpa [renderEntries] using hok, by simpa using hinv (some "RAW=other")⟩

/-- C2: for a freshly created project (implicit default environment id in
hand) with auto-create enabled and no environment of the requested name
found in the project: a name equal to "production" case-insensitively
resolves to the implicit default id with no `environment.create` call; any
other name triggers a genuine create whose returned id is used. -/
theorem C2_environment_reuse (defaultId createdId name : String) (envs : List EnvRec)
    (hd : defaultId ≠ "") (hn : name ≠ "")
    (hnotfound : ∀ e ∈ envs, e.name ≠ name) :
    (jsToLowerCase name = "production" →
      resolveEnvironment none (some name) true (some defaultId) envs createdId =
        .ok (some defaultId, false)) ∧
    (jsToLowerCase name ≠ "production" →
      resolveEnvironment none (some name) true (some defaultId) envs createdId =
        .ok (some createdId, true)) := by
  have hfind : envs.find? (fun e => e.name = name) = none := by
    rw [List.find?_eq_none]
    intro e he
    simpa using hnotfound e he
  constructor
  · intro hprod
    simp [resolveEnvironment, strTruthy, hn, hd, hfind, hprod]
  · intro hprod
    simp [resolveEnvironment, strTruthy, hn, hd, hfind, hprod]

/-- Closed instance of `C2_environment_reuse`: requested name "Production"
(case-insensitive match) reuses the implicit default environment without a
create call; "staging" leads to a genuine create whose id is used. -/
theorem C2_environment_reuse_witness :
    resolveEnvironment none (some "Production") true (some "env-default") [] "env-new" =
      .ok (some "env-default", false) ∧
    resolveEnvironment none (some "staging") true (some "env-default") [] "env-new" =
      .ok (some "env-new", true) := by
  refine ⟨?_, ?_⟩
  · exact (C2_environment_reuse "env-default" "env-new" "Production" [] (by decide) (by decide)
      (by simp)).1 (by decide)
  · exact (C2_environment_reuse "env-default" "env-new" "staging" [] (by decide) (by decide)
      (by simp)).2 (by decide)

/-- C3 counterexample: with wait-for-deployment and health-check both
enabled and a deployment URL known, the trace of Steps 12–13 is a fixed
sleep followed directly by the full health check — it contains no quick
low-retry health probe at all (the claim says one is performed first), and
it contains no polling-wait invocation that a healthy probe could skip. -/
theorem C3_no_quick_probe_counterexample :
    step12And13 true none true (some "https://app.example.com") true "healthy" =
      [.sleepMs 60000, .healthCheck "https://app.example.com",
       .setOutput "health-check-status" "healthy"] ∧
    RunEvent.quickHealthProbe ∉
      step12And13 true none true (some "https://app.example.com") true "healthy" ∧
    RunEvent.waitForDeploymentPoll ∉
      step12And13 true none true (some "https://app.example.com") true "healthy" := by
  refine ⟨by decide, by decide, by decide⟩

/-- C3 amended: when wait-for-deployment is enabled, Steps 12–13 only sleep
`min(60000, timeout·1000/5)` ms; no quick health probe is performed and the
polling wait (`waitForDeployment`) is never invoked; when health-check is
enabled and a URL is known, the full health check then runs unconditionally,
and a non-"unhealthy" result leaves no failure marking. -/
theorem C3_amended_wait_then_healthcheck (w : Bool) (t : Option Int) (h : Bool)
    (u : Option String) (f : Bool) (st : String) :
    RunEvent.quickHealthProbe ∉ step12And13 w t h u f st ∧
    RunEvent.waitForDeploymentPoll ∉ step12And13 w t h u f st ∧
    (w = true →
      (step12And13 w t h u f st).head? = some (.sleepMs (min 60000 (intOr t 300 * 200)))) ∧
    (h = true → ∀ url, u = some url → RunEvent.healthCheck url ∈ step12And13 w t h u f st) ∧
    ((h = false ∨ u = none) →
      RunEvent.setOutput "health-check-status" "skipped" ∈ step12And13 w t h u f st) ∧
    (st ≠ "unhealthy" → RunEvent.setOutput "deployment-status" "failed" ∉ step12And13 w t h u f st) := by
  refine ⟨?_, ?_, ?_, ?_, ?_, ?_⟩
  · cases w <;> cases h <;> cases u <;> simp [step12And13]
  · cases w <;> cases h <;> cases u <;> simp [step12And13]
  · intro hw
    subst hw
    cases h <;> cases u <;> simp [step12And13]
  · intro hh url hu
    subst hh hu
    cases w <;> simp [step12And13]
  · intro hcase
    rcases hcase with hh | hu
    · subst hh
      cases w <;> cases u <;> simp [step12And13]
    · subst hu
      cases w <;> cases h <;> simp [step12And13]
  · intro hst
    cases w <;> cases h <;> cases u <;> simp [step12And13, hst]

/-- Closed instance of `C3_amended_wait_then_healthcheck` at the
counterexample's configuration. -/
theorem C3_amended_wait_then_healthcheck_witness :
    RunEvent.quickHealthProbe ∉
      step12And13 true none true (some "https://app.example.com") true "healthy" ∧
    (step12And13 true none true (some "https://app.example.com") true "healthy").head? =
      some (.sleepMs 60000) ∧
    RunEvent.healthCheck "https://app.example.com" ∈
      step12And13 true none true (some "https://app.example.com") true "healthy" := by
  have h := C3_amended_wait_then_healthcheck true none true (some "https://app.example.com")
    true "healthy"
  refine ⟨h.1, ?_, h.2.2.2.1 rfl "https://app.example.com" rfl⟩
  simpa using h.2.2.1 rfl

/-- Characterization of `domainStep` when at least one exact match exists:
the sorted (or singleton) match list splits as `keep :: tail`, and the step
keeps `keep`, deletes `tail`, and emits the cleanup trace followed by the
force/update decision. -/
theorem domainStep_char (domains : List DomainRec) (cfg : DomainCfg) (force : Bool)
    (hm : domains.filter (fun d => tripleMatch d cfg) ≠ []) :
    ∃ keep tail,
      (if 1 < (domains.filter (fun d => tripleMatch d cfg)).length
        then sortByCreatedDesc (domains.filter (fun d => tripleMatch d cfg))
        else domains.filter (fun d => tripleMatch d cfg)) = keep :: tail ∧
      List.Perm (domains.filter (fun d => tripleMatch d cfg)) (keep :: tail) ∧
      domainStep domains cfg force =
        { events := tail.flatMap (fun d => [.removeDomain (domIdOf d), .sleepMs 1000]) ++
            (if force then [.removeDomain (domIdOf keep), .sleepMs 2000, .createDomain cfg]
             else [.updateDomain (domIdOf keep) cfg])
          existingDomain := some keep
          deleted := tail } := by
  set m := domains.filter (fun d => tripleMatch d cfg) with hmdef
  by_cases h1 : 1 < m.length
  · have hperm : List.Perm (sortByCreatedDesc m) m := sortByCreatedDesc_perm m
    have hsne : sortByCreatedDesc m ≠ [] := by
      intro h0
      rw [h0] at hperm
      exact hm hperm.symm.eq_nil
    obtain ⟨keep, tail, hsort⟩ := List.exists_cons_of_ne_nil hsne
    refine ⟨keep, tail, by rw [if_pos h1, hsort], (hsort ▸ hperm).symm, ?_⟩
    simp only [domainStep, ← hmdef, if_pos h1, hsort]
    rfl
  · have hlen1 : m.length = 1 := by
      have : 0 < m.length := List.length_pos.mpr hm
      omega
    obtain ⟨keep, hkeep⟩ := List.length_eq_one.mp hlen1
    refine ⟨keep, [], by rw [if_neg h1, hkeep], by rw [hkeep], ?_⟩
    simp only [domainStep, ← hmdef, if_neg h1, hkeep]
    rfl

/-- C4: whenever Step 9 finds at least one exact (host, port, path) match,
it ends up with exactly one kept match: the kept record together with the
deleted records is a permutation of all exact matches, the kept record has
the maximal creation timestamp, the event trace begins with precisely the
cleanup deletions (each followed by the 1000 ms pause), and nothing is
deleted when there was at most one match. -/
theorem C4_duplicate_cleanup (domains : List DomainRec) (cfg : DomainCfg) (force : Bool)
    (hm : domains.filter (fun d => tripleMatch d cfg) ≠ []) :
    ∃ keep,
      (domainStep domains cfg force).existingDomain = some keep ∧
      List.Perm (domains.filter (fun d => tripleMatch d cfg))
        (keep :: (domainStep domains cfg force).deleted) ∧
      (∀ d ∈ domains.filter (fun d => tripleMatch d cfg),
        d.createdAtMs ≤ keep.createdAtMs) ∧
      ((domainStep domains cfg force).events.take
          (2 * (domainStep domains cfg force).deleted.length) =
        (domainStep domains cfg force).deleted.flatMap
          (fun d => [.removeDomain (domIdOf d), .sleepMs 1000])) ∧
      ((domains.filter (fun d => tripleMatch d cfg)).length ≤ 1 →
        (domainStep domains cfg force).deleted = []) := by
  obtain ⟨keep, tail, hsort, hperm, hstep⟩ := domainStep_char domains cfg force hm
  refine ⟨keep, by rw [hstep], by rw [hstep]; exact hperm, ?_, ?_, ?_⟩
  · intro d hd
    have hd' : d ∈ keep :: tail := hperm.mem_iff.mp hd
    by_cases h1 : 1 < (domains.filter (fun d => tripleMatch d cfg)).length
    · have hpw := sortByCreatedDesc_pairwise (domains.filter (fun d => tripleMatch d cfg))
      rw [if_pos h1] at hsort
      rw [hsort] at hpw
      rcases List.mem_cons.mp hd' with rfl | hdt
      · exact le_refl _
      · exact (List.pairwise_cons.mp hpw).1 d hdt
    · have htail : tail = [] := by
        have hlen2 := hperm.length_eq
        simp only [List.length_cons] at hlen2
        rcases tail with _ | ⟨x, xs⟩
        · rfl
        · exfalso
          simp only [List.length_cons] at hlen2
          omega
      subst htail
      rcases List.mem_cons.mp hd' with rfl | hdt
      · exact le_refl _
      · simp at hdt
  · rw [hstep]
    have hlen := flatMap_two_length tail
    simp only [← hlen]
    exact List.take_left _ _
  · intro hle
    have hlen := hperm.length_eq
    rw [hstep]
    show tail = []
    rcases tail with _ | ⟨x, xs⟩
    · rfl
    · exfalso
      simp only [List.length_cons] at hlen
      omega

/-- Closed instance of `C4_duplicate_cleanup` on three exact matches with
distinct creation times. -/
theorem C4_duplicate_cleanup_witness :
    ([{ domainId := some "d1", id := none, host := "h", path := some "/", port := some 80,
        createdAtMs := 5 },
      { domainId := some "d2", id := none, host := "h", path := some "/", port := some 80,
        createdAtMs := 9 },
      { domainId := some "d3", id := none, host := "h", path := some "/", port := some 80,
        createdAtMs := 7 }].filter (fun d => tripleMatch d
          { host := "h", path := "/", port := 80, https := true,
            certificateType := "letsencrypt", stripPath := false }) ≠ []) ∧
    ∃ keep,
      (domainStep
        [{ domainId := some "d1", id := none, host := "h", path := some "/", port := some 80,
           createdAtMs := 5 },
         { domainId := some "d2", id := none, host := "h", path := some "/", port := some 80,
           createdAtMs := 9 },
         { domainId := some "d3", id := none, host := "h", path := some "/", port := some 80,
           createdAtMs := 7 }]
        { host := "h", path := "/", port := 80, https := true,
          certificateType := "letsencrypt", stripPath := false } false).existingDomain =
        some keep ∧
      List.Perm
        ([{ domainId := some "d1", id := none, host := "h", path := some "/", port := some 80,
            createdAtMs := 5 },
          { domainId := some "d2", id := none, host := "h", path := some "/", port := some 80,
            createdAtMs := 9 },
          { domainId := some "d3", id := none, host := "h", path := some "/", port := some 80,
            createdAtMs := 7 }].filter (fun d => tripleMatch d
            { host := "h", path := "/", port := 80, https := true,
              certificateType := "letsencrypt", stripPath := false }))
        (keep :: (domainStep
          [{ domainId := some "d1", id := none, host := "h", path := some "/", port := some 80,
             createdAtMs := 5 },
           { domainId := some "d2", id := none, host := "h", path := some "/", port := some 80,
             createdAtMs := 9 },
           { domainId := some "d3", id := none, host := "h", path := some "/", port := some 80,
             createdAtMs := 7 }]
          { host := "h", path := "/", port := 80, https := true,
            certificateType := "letsencrypt", stripPath := false } false).deleted) ∧
      (∀ d ∈ [{ domainId := some "d1", id := none, host := "h", path := some "/",
                port := some 80, createdAtMs := 5 },
              { domainId := some "d2", id := none, host := "h", path := some "/",
                port := some 80, createdAtMs := 9 },
              { domainId := some "d3", id := none, host := "h", path := some "/",
                port := some 80, createdAtMs := 7 }].filter (fun d => tripleMatch d
                { host := "h", path := "/", port := 80, https := true,
                  certificateType := "letsencrypt", stripPath := false }),
        d.createdAtMs ≤ keep.createdAtMs) := by
  refine ⟨by decide, ?_⟩
  obtain ⟨keep, h1, h2, h3, _, _⟩ := C4_duplicate_cleanup
    [{ domainId := some "d1", id := none, host := "h", path := some "/", port := some 80,
       createdAtMs := 5 },
     { domainId := some "d2", id := none, host := "h", path := some "/", port := some 80,
       createdAtMs := 9 },
     { domainId := some "d3", id := none, host := "h", path := some "/", port := some 80,
       createdAtMs := 7 }]
    { host := "h", path := "/", port := 80, https := true,
      certificateType := "letsencrypt", stripPath := false } false (by decide)
  exact ⟨keep, h1, h2, h3⟩

/-- C5: the decision of Step 9 is taken on exact (host, port, path)
equality: no triple match (even with hosts in common) results in a plain
create with no record treated as existing; a triple match with
force-recreation requested yields delete-then-create on the kept record; a
triple match without the force flag yields an in-place update and no
`createDomain` call at all. -/
theorem C5_domain_decision (domains : List DomainRec) (cfg : DomainCfg) (force : Bool) :
    ((∀ d ∈ domains, tripleMatch d cfg = false) →
      (domainStep domains cfg force).existingDomain = none ∧
      (domainStep domains cfg force).events = [.createDomain cfg]) ∧
    (domains.filter (fun d => tripleMatch d cfg) ≠ [] →
      ∃ keep, (domainStep domains cfg force).existingDomain = some keep ∧
        (force = true →
          (domainStep domains cfg force).events =
            (domainStep domains cfg force).deleted.flatMap
                (fun d => [.removeDomain (domIdOf d), .sleepMs 1000]) ++
              [.removeDomain (domIdOf keep), .sleepMs 2000, .createDomain cfg]) ∧
        (force = false →
          (domainStep domains cfg force).events =
            (domainStep domains cfg force).deleted.flatMap
                (fun d => [.removeDomain (domIdOf d), .sleepMs 1000]) ++
              [.updateDomain (domIdOf keep) cfg] ∧
          ∀ c, DomainEvent.createDomain c ∉ (domainStep domains cfg force).events)) := by
  constructor
  · intro hnone
    have hfilter : domains.filter (fun d => tripleMatch d cfg) = [] := by
      rw [List.filter_eq_nil_iff]
      intro d hd
      simp [hnone d hd]
    constructor
    · simp only [domainStep, hfilter]
      rfl
    · simp only [domainStep, hfilter]
      rfl
  · intro hm
    obtain ⟨keep, tail, hsort, hperm, hstep⟩ := domainStep_char domains cfg force hm
    refine ⟨keep, by rw [hstep], ?_, ?_⟩
    · intro hforce
      subst hforce
      rw [hstep]
      rfl
    · intro hforce
      subst hforce
      refine ⟨by rw [hstep]; rfl, ?_⟩
      intro c
      rw [hstep]
      simp only [if_neg Bool.false_ne_true, List.mem_append]
      rintro (hmem | hmem)
      · exact createDomain_not_mem_cleanup c tail hmem
      · simp at hmem

/-- Domain payload used by the C5 witness. -/
def exCfg : DomainCfg :=
  { host := "h", path := "/", port := 80, https := true,
    certificateType := "letsencrypt", stripPath := false }

/-- A record sharing the host but not the path with `exCfg`. -/
def exHostOnly : DomainRec :=
  { domainId := some "dA", id := none, host := "h", path := some "/api", port := some 80,
    createdAtMs := 1 }

/-- A record matching `exCfg` exactly. -/
def exMatch : DomainRec :=
  { domainId := some "dB", id := none, host := "h", path := some "/", port := some 80,
    createdAtMs := 1 }

/-- Closed instance of `C5_domain_decision`: a domain sharing only the host
is not treated as existing (a new domain is created), while an exact triple
match without force-recreation is updated in place with no create call. -/
theorem C5_domain_decision_witness :
    (domainStep [exHostOnly] exCfg false).events = [.createDomain exCfg] ∧
    ∃ keep,
      (domainStep [exMatch] exCfg false).existingDomain = some keep ∧
      (domainStep [exMatch] exCfg false).events =
        (domainStep [exMatch] exCfg false).deleted.flatMap
            (fun d => [.removeDomain (domIdOf d), .sleepMs 1000]) ++
          [.updateDomain (domIdOf keep) exCfg] ∧
      ∀ c, DomainEvent.createDomain c ∉ (domainStep [exMatch] exCfg false).events := by
  refine ⟨((C5_domain_decision [exHostOnly] exCfg false).1 (by decide)).2, ?_⟩
  obtain ⟨keep, hk, _, hfalse⟩ := (C5_domain_decision [exMatch] exCfg false).2 (by decide)
  obtain ⟨hev, hnc⟩ := hfalse rfl
  exact ⟨keep, hk, hev, hnc⟩

/-! ### Support lemmas for the polling loop -/

/-- A successful `waitLoop` result always carries status `completed`. -/
theorem waitLoop_ok_status (getD : Nat → DeploymentRec) (ts tms pms : Nat) :
    ∀ fuel k d, waitLoop getD ts tms pms k fuel = .ok d → d.status = some .completed := by
  intro fuel
  induction fuel with
  | zero =>
    intro k d h
    simp [waitLoop] at h
  | succ n ih =>
    intro k d h
    simp only [waitLoop] at h
    by_cases h1 : (getD k).status = some .completed
    · rw [if_pos h1] at h
      cases h
      exact h1
    · rw [if_neg h1] at h
      by_cases h2 : (getD k).status = some .failed
      · rw [if_pos h2] at h
        cases h
      · rw [if_neg h2] at h
        by_cases h3 : tms ≤ k * pms
        · rw [if_pos h3] at h
          cases h
        · rw [if_neg h3] at h
          exact ih (k + 1) d h

/-- Skipping `n` non-terminal, non-timed-out polls advances the loop. -/
theorem waitLoop_advance (getD : Nat → DeploymentRec) (ts tms pms : Nat) :
    ∀ n k fuel,
      (∀ j, k ≤ j → j < k + n →
        (getD j).status ≠ some .completed ∧ (getD j).status ≠ some .failed ∧ j * pms < tms) →
      waitLoop getD ts tms pms k (fuel + n) = waitLoop getD ts tms pms (k + n) fuel := by
  intro n
  induction n with
  | zero => intro k fuel _; rfl
  | succ m ih =>
    intro k fuel hh
    have h0 := hh k (le_refl k) (by omega)
    have hsplit : fuel + (m + 1) = (fuel + m) + 1 := by omega
    rw [hsplit]
    have hstep : waitLoop getD ts tms pms k ((fuel + m) + 1) =
        waitLoop getD ts tms pms (k + 1) (fuel + m) := by
      simp only [waitLoop]
      rw [if_neg h0.1, if_neg h0.2.1, if_neg (by omega : ¬ tms ≤ k * pms)]
    rw [hstep, ih (k + 1) fuel (fun j hj1 hj2 => hh j (by omega) (by omega))]
    congr 1
    omega

/-- Outcome of the loop at the first poll whose status is decisive, given
that every earlier poll was non-terminal and inside the time budget. -/
theorem waitLoop_first_decisive (getD : Nat → DeploymentRec) (ts tms pms : Nat)
    (k fuel : Nat) (hfuel : k < fuel)
    (hreach : ∀ j < k,
      (getD j).status ≠ some .completed ∧ (getD j).status ≠ some .failed ∧ j * pms < tms) :
    ((getD k).status = some .completed →
      waitLoop getD ts tms pms 0 fuel = .ok (getD k)) ∧
    ((getD k).status = some .failed →
      waitLoop getD ts tms pms 0 fuel = .error (.deployFailed (getD k).logs)) ∧
    ((getD k).status ≠ some .completed → (getD k).status ≠ some .failed → tms ≤ k * pms →
      waitLoop getD ts tms pms 0 fuel = .error (.timeoutExpired ts (getD k).status)) := by
  obtain ⟨rest, hrest⟩ : ∃ rest, fuel - k = rest + 1 := ⟨fuel - k - 1, by omega⟩
  have hadv : waitLoop getD ts tms pms 0 fuel =
      waitLoop getD ts tms pms k (rest + 1) := by
    have hsplit : fuel = (rest + 1) + k := by omega
    rw [hsplit, waitLoop_advance getD ts tms pms k 0 (rest + 1)
      (fun j hj1 hj2 => hreach j (by omega))]
    norm_num
  refine ⟨?_, ?_, ?_⟩
  · intro hc
    rw [hadv]
    simp only [waitLoop]
    rw [if_pos hc]
  · intro hf
    rw [hadv]
    simp only [waitLoop]
    rw [if_neg (by simp [hf]), if_pos hf]
  · intro hc hf ht
    rw [hadv]
    simp only [waitLoop]
    rw [if_neg hc, if_neg hf, if_pos ht]

/-- C6: `waitForDeployment` polls the deployment at a fixed interval and
(i) only ever succeeds with a `completed` deployment, returning the
deployment fetched at the first decisive poll; (ii) throws the
deploy-failed error carrying the deployment's logs when a poll observes
`failed`; (iii) when the timeout elapses with no terminal status, throws a
timeout error carrying — and rendering in its message — the last observed
status. Polls are indexed by `getD`; a poll `k` is reached when all earlier
polls were non-terminal and within the budget (`j * p < t` in seconds). -/
theorem C6_waitForDeployment_spec (getD : Nat → DeploymentRec) (t p : Nat) (hp : 0 < p) :
    (∀ d, waitForDeployment getD t p = .ok d → d.status = some .completed) ∧
    (∀ k, (∀ j < k,
        (getD j).status ≠ some .completed ∧ (getD j).status ≠ some .failed ∧ j * p < t) →
      ((getD k).status = some .completed → waitForDeployment getD t p = .ok (getD k)) ∧
      ((getD k).status = some .failed →
        waitForDeployment getD t p = .error (.deployFailed (getD k).logs))) ∧
    (∀ K, (∀ j < K,
        (getD j).status ≠ some .completed ∧ (getD j).status ≠ some .failed ∧ j * p < t) →
      (getD K).status ≠ some .completed → (getD K).status ≠ some .failed → t ≤ K * p →
      waitForDeployment getD t p = .error (.timeoutExpired t (getD K).status) ∧
      renderWaitError (.timeoutExpired t ((getD K).status)) =
        "Deployment timeout after " ++ toString t ++ "s (status: " ++
          statusText (getD K).status ++ ")") := by
  have hms : ∀ j, j * p < t → j * (p * 1000) < t * 1000 := by
    intro j h
    rw [← Nat.mul_assoc]
    omega
  have hbound : ∀ k, (∀ j < k,
      (getD j).status ≠ some .completed ∧ (getD j).status ≠ some .failed ∧ j * p < t) →
      k < t * 1000 / (p * 1000) + 2 := by
    intro k hk
    rcases k with _ | k'
    · exact Nat.add_pos_right _ (by norm_num)
    · have h1 : k' * (p * 1000) ≤ t * 1000 :=
        le_of_lt (hms k' (hk k' (Nat.lt_succ_self k')).2.2)
      have h2 : k' ≤ t * 1000 / (p * 1000) :=
        (Nat.le_div_iff_mul_le (by omega : 0 < p * 1000)).mpr h1
      omega
  refine ⟨?_, ?_, ?_⟩
  · intro d h
    exact waitLoop_ok_status getD t (t * 1000) (p * 1000) _ 0 d h
  · intro k hk
    have hreach : ∀ j < k, (getD j).status ≠ some .completed ∧
        (getD j).status ≠ some .failed ∧ j * (p * 1000) < t * 1000 :=
      fun j hj => ⟨(hk j hj).1, (hk j hj).2.1, hms j (hk j hj).2.2⟩
    obtain ⟨hcomp, hfail, _⟩ := waitLoop_first_decisive getD t (t * 1000) (p * 1000) k
      (t * 1000 / (p * 1000) + 2) (hbound k hk) hreach
    exact ⟨hcomp, hfail⟩
  · intro K hk hc hf ht
    have hreach : ∀ j < K, (getD j).status ≠ some .completed ∧
        (getD j).status ≠ some .failed ∧ j * (p * 1000) < t * 1000 :=
      fun j hj => ⟨(hk j hj).1, (hk j hj).2.1, hms j (hk j hj).2.2⟩
    have htms : t * 1000 ≤ K * (p * 1000) := by
      rw [← Nat.mul_assoc]
      omega
    obtain ⟨_, _, htimeout⟩ := waitLoop_first_decisive getD t (t * 1000) (p * 1000) K
      (t * 1000 / (p * 1000) + 2) (hbound K hk) hreach
    exact ⟨htimeout hc hf htms, rfl⟩

/-- Closed instances of `C6_waitForDeployment_spec`: a deployment that
completes on the third poll is returned; one that fails on the third poll
throws with its logs; one that never terminates within a 10 s budget at a
5 s interval throws the timeout error naming the last status. -/
theorem C6_waitForDeployment_spec_witness :
    waitForDeployment
      (fun k => if k < 2 then { status := some .deploying, logs := none }
        else { status := some .completed, logs := some "done" }) 300 5 =
      .ok { status := some .completed, logs := some "done" } ∧
    waitForDeployment
      (fun k => if k < 2 then { status := some .pending, logs := none }
        else { status := some .failed, logs := some "boom" }) 300 5 =
      .error (.deployFailed (some "boom")) ∧
    waitForDeployment (fun _ => { status := some .deploying, logs := none }) 10 5 =
      .error (.timeoutExpired 10 (some .deploying)) ∧
    renderWaitError (.timeoutExpired 10 (some .deploying)) =
      "Deployment timeout after 10s (status: deploying)" := by
  have hc := ((C6_waitForDeployment_spec
    (fun k => if k < 2 then { status := some .deploying, logs := none }
      else { status := some .completed, logs := some "done" }) 300 5 (by decide)).2.1 2
    (by decide)).1 (by decide)
  have hf := ((C6_waitForDeployment_spec
    (fun k => if k < 2 then { status := some .pending, logs := none }
      else { status := some .failed, logs := some "boom" }) 300 5 (by decide)).2.1 2
    (by decide)).2 (by decide)
  have hto := (C6_waitForDeployment_spec
    (fun _ => { status := some .deploying, logs := none }) 10 5 (by decide)).2.2 2
    (by decide) (by decide) (by decide) (by decide)
  exact ⟨by simpa using hc, by simpa using hf, hto.1, by decide⟩

/-! ### Support lemmas for the container-name pipeline -/

/-- Unfolding equation for `splitOnChar` on a cons, given the split of the
rest. -/
theorem splitOnChar_cons_eq (sep x : Char) (rest : List Char) (hd : List Char)
    (tl : List (List Char)) (hsp : splitOnChar sep rest = hd :: tl) :
    splitOnChar sep (x :: rest) =
      if x = sep then [] :: hd :: tl else (x :: hd) :: tl := by
  simp only [splitOnChar, hsp]

/-- `splitOnChar` never returns the empty list of pieces. -/
theorem splitOnChar_ne_nil (sep : Char) (l : List Char) : splitOnChar sep l ≠ [] := by
  induction l with
  | nil => simp [splitOnChar]
  | cons x rest ih =>
    rcases hsp : splitOnChar sep rest with _ | ⟨hd, tl⟩
    · exact absurd hsp ih
    · rw [splitOnChar_cons_eq sep x rest hd tl hsp]
      split <;> simp

/-- Every char of every piece of `splitOnChar` comes from the input. -/
theorem splitOnChar_piece_subset (sep : Char) (l : List Char) :
    ∀ piece ∈ splitOnChar sep l, ∀ c ∈ piece, c ∈ l := by
  induction l with
  | nil =>
    intro piece hp c hc
    simp only [splitOnChar, List.mem_singleton] at hp
    subst hp
    simp at hc
  | cons x rest ih =>
    intro piece hp c hc
    rcases hsp : splitOnChar sep rest with _ | ⟨hd, tl⟩
    · exact absurd hsp (splitOnChar_ne_nil sep rest)
    · rw [splitOnChar_cons_eq sep x rest hd tl hsp] at hp
      by_cases hxsep : x = sep
      · rw [if_pos hxsep] at hp
        rcases List.mem_cons.mp hp with rfl | hp2
        · simp at hc
        · have : c ∈ rest := ih piece (hsp ▸ hp2) c hc
          exact List.mem_cons_of_mem x this
      · rw [if_neg hxsep] at hp
        rcases List.mem_cons.mp hp with rfl | hp2
        · rcases List.mem_cons.mp hc with rfl | hc2
          · exact List.mem_cons_self c rest
          · have hhd : hd ∈ splitOnChar sep rest := by rw [hsp]; exact List.mem_cons_self hd tl
            exact List.mem_cons_of_mem x (ih hd hhd c hc2)
        · have htl : piece ∈ splitOnChar sep rest := by
            rw [hsp]
            exact List.mem_cons_of_mem hd hp2
          exact List.mem_cons_of_mem x (ih piece htl c hc)

/-- `getLastD` of a nonempty list is a member. -/
theorem getLastD_mem_of_ne_nil {α : Type} (l : List α) (d : α) (h : l ≠ []) :
    l.getLastD d ∈ l := by
  induction l generalizing d with
  | nil => exact absurd rfl h
  | cons x xs ih =>
    rcases hxs : xs with _ | ⟨y, ys⟩
    · simp [List.getLastD]
    · rw [List.getLastD_cons]
      subst hxs
      exact List.mem_cons_of_mem x (ih d (by simp))

/-- Every char of `lastDashPart l` comes from `l`. -/
theorem lastDashPart_subset (l : List Char) : ∀ c ∈ lastDashPart l, c ∈ l := by
  intro c hc
  have hmem : lastDashPart l ∈ splitOnChar '-' l :=
    getLastD_mem_of_ne_nil _ _ (splitOnChar_ne_nil '-' l)
  exact splitOnChar_piece_subset '-' l _ hmem c hc

/-- `dropTrail` keeps a prefix of its input. -/
theorem dropTrail_pre (p : Char → Bool) (l : List Char) : dropTrail p l <+: l := by
  have h := List.dropWhile_suffix (l := l.reverse) p
  have h2 := List.reverse_prefix.mpr h
  simpa [dropTrail] using h2

/-- `dropTrail` only keeps input chars. -/
theorem dropTrail_subset (p : Char → Bool) (l : List Char) :
    ∀ c ∈ dropTrail p l, c ∈ l :=
  fun _ hc => (dropTrail_pre p l).subset hc

/-- `dropTrail` never lengthens. -/
theorem dropTrail_length_le (p : Char → Bool) (l : List Char) :
    (dropTrail p l).length ≤ l.length :=
  (dropTrail_pre p l).length_le

/-- The head surviving `dropWhile p` fails `p`. -/
theorem head?_dropWhile_false (p : Char → Bool) (l : List Char) (c : Char)
    (h : (l.dropWhile p).head? = some c) : p c = false := by
  induction l with
  | nil => simp [List.dropWhile] at h
  | cons x xs ih =>
    rw [List.dropWhile_cons] at h
    by_cases hx : p x
    · rw [if_pos hx] at h
      exact ih h
    · rw [if_neg hx] at h
      simp only [List.head?_cons, Option.some.injEq] at h
      subst h
      exact Bool.eq_false_iff.mpr hx

/-- A nonempty prefix has the same head. -/
theorem headq_of_pre {l₁ l₂ : List Char} (h : l₁ <+: l₂) (c : Char)
    (hc : l₁.head? = some c) : l₂.head? = some c := by
  obtain ⟨t, rfl⟩ := h
  cases l₁ with
  | nil => simp at hc
  | cons x xs => simpa using hc

/-- Every char of a sanitized name is admitted by the naming constraint. -/
theorem sanitizeName_chars (s : String) : ∀ c ∈ sanitizeName s, validNameChar c := by
  intro c hc
  have hc2 := dropTrail_subset dotDash _ c hc
  have hc3 : c ∈ s.data.map (fun c => if validNameChar c then c else '-') :=
    (List.dropWhile_suffix dotDash).subset hc2
  obtain ⟨a, _, hfa⟩ := List.mem_map.mp hc3
  by_cases hv : validNameChar a
  · rw [if_pos hv] at hfa
    exact hfa ▸ hv
  · rw [if_neg hv] at hfa
    subst hfa
    decide

/-- A sanitized name never starts with `.` or `-`. -/
theorem sanitizeName_head (s : String) :
    ∀ c, (sanitizeName s).head? = some c → dotDash c = false := by
  intro c hc
  have hpre := dropTrail_pre dotDash
    ((s.data.map (fun c => if validNameChar c then c else '-')).dropWhile dotDash)
  have h2 := headq_of_pre hpre c hc
  exact head?_dropWhile_false dotDash _ c h2

/-- Truncation preserves the naming constraint on chars. -/
theorem truncateName_chars (l : List Char) (hl : ∀ c ∈ l, validNameChar c) :
    ∀ c ∈ truncateName l, validNameChar c := by
  intro c hc
  unfold truncateName at hc
  by_cases h63 : 63 < l.length
  · rw [if_pos h63] at hc
    by_cases hv : lastDashPart l ≠ [] ∧
        (testVDigit (lastDashPart l) ∨ testDigitsDotDigits (lastDashPart l))
    · rw [if_pos hv] at hc
      have hc2 := dropTrail_subset dotDash _ c hc
      rcases List.mem_append.mp hc2 with htk | hc3
      · have hpre := List.take_prefix (63 - (lastDashPart l).length - 1) l
        exact hl c (hpre.subset htk)
      · rcases List.mem_cons.mp hc3 with rfl | hc4
        · decide
        · exact hl c (lastDashPart_subset l c hc4)
    · rw [if_neg hv] at hc
      have hpre := List.take_prefix 63 l
      exact hl c (hpre.subset (dropTrail_subset dotDash _ c hc))
  · rw [if_neg h63] at hc
    exact hl c hc

/-- Truncation yields a ≤ 63-char name with no leading `.`/`-` whenever the
version-preserving branch is not taken or preserves a suffix of at most 61
chars. -/
theorem truncateName_bounded (l : List Char)
    (hhead : ∀ c, l.head? = some c → dotDash c = false)
    (hcond : versionBranch l = false ∨ (lastDashPart l).length ≤ 61) :
    (truncateName l).length ≤ 63 ∧
    (∀ c, (truncateName l).head? = some c → dotDash c = false) := by
  unfold truncateName
  by_cases h63 : 63 < l.length
  · rw [if_pos h63]
    by_cases hv : lastDashPart l ≠ [] ∧
        (testVDigit (lastDashPart l) ∨ testDigitsDotDigits (lastDashPart l))
    · rw [if_pos hv]
      have hL : (lastDashPart l).length ≤ 61 := by
        rcases hcond with hfalse | hok
        · exfalso
          have : versionBranch l = true := by
            simp [versionBranch, h63, hv.1, hv.2]
          rw [this] at hfalse
          cases hfalse
        · exact hok
      constructor
      · have h1 := dropTrail_length_le dotDash
          (l.take (63 - (lastDashPart l).length - 1) ++ '-' :: lastDashPart l)
        have h2 : (l.take (63 - (lastDashPart l).length - 1)).length =
            min (63 - (lastDashPart l).length - 1) l.length := List.length_take _ _
        simp only [List.length_append, List.length_cons] at h1
        omega
      · intro c hc
        have htake_ne : l.take (63 - (lastDashPart l).length - 1) ≠ [] := by
          have : (l.take (63 - (lastDashPart l).length - 1)).length =
              min (63 - (lastDashPart l).length - 1) l.length := List.length_take _ _
          intro hnil
          rw [hnil] at this
          simp at this
          omega
        obtain ⟨x, xs, hxl⟩ := List.exists_cons_of_ne_nil htake_ne
        have hpre := List.take_prefix (63 - (lastDashPart l).length - 1) l
        have hx_head_l : l.head? = some x := headq_of_pre hpre x (by rw [hxl]; rfl)
        have happ : (l.take (63 - (lastDashPart l).length - 1) ++
            '-' :: lastDashPart l).head? = some x := by
          rw [hxl]
          rfl
        have hc2 := headq_of_pre (dropTrail_pre dotDash _) c hc
        rw [happ] at hc2
        injection hc2 with hxc
        subst hxc
        exact hhead x hx_head_l
    · rw [if_neg hv]
      constructor
      · have h1 := dropTrail_length_le dotDash (l.take 63)
        have h2 : (l.take 63).length = min 63 l.length := List.length_take _ _
        omega
      · intro c hc
        have hc2 := headq_of_pre (dropTrail_pre dotDash _) c hc
        have hpre := List.take_prefix 63 l
        have hc3 := headq_of_pre hpre c hc2
        exact hhead c hc3
  · rw [if_neg h63]
    exact ⟨by omega, hhead⟩

set_option maxRecDepth 4000 in
/-- C7 counterexample. First: the source extracts the version as
`split(':')[1]` — the segment after the *first* colon — not the text after
the last colon; for the registry-with-port image `"reg:5000/web:v1.2"` the
template `"{version}"` therefore yields `"5000-web"` (the sanitized middle
segment), not `"v1.2"` as the claim's rule dictates. Second: when the
sanitized name exceeds 63 chars and its version-looking trailing part is
itself 62 chars or longer, the rebuilt name `"" ++ "-" ++ lastPart` exceeds
63 chars and starts with a dash, violating the claim's "≤ 63 chars, no
leading dash" sanitization guarantee. -/
theorem C7_container_name_counterexample :
    buildContainerName "{version}" "web" "reg:5000/web:v1.2" (some "production") = "5000-web" ∧
    "5000-web" ≠ "v1.2" ∧
    63 < (buildContainerName "{app}"
      "aaaaaaaaaaaaaaaaaaaaaaaaaaaaaaaaaaaaaaaaaaaaaaaaaaaaaaaaaaaaaaaaaa1.23"
      "nginx:latest" (some "production")).length ∧
    (buildContainerName "{app}"
      "aaaaaaaaaaaaaaaaaaaaaaaaaaaaaaaaaaaaaaaaaaaaaaaaaaaaaaaaaaaaaaaaaa1.23"
      "nginx:latest" (some "production")).data.head? = some '-' := by
  refine ⟨by decide, by decide, by decide, by decide⟩

set_option maxRecDepth 4000 in
/-- C7 amended: the builder substitutes the application name, the segment of
the image reference after the *first* `:` (up to the next `:`, defaulting to
"latest" when missing or empty), and the environment name; the result is
sanitized to alphanumeric/dot/dash/underscore; the sanitized result is
truncated to at most 63 chars with no leading dot or dash whenever the
version-preserving branch is not taken or the preserved version part is at
most 61 chars; and the claim's example `"{app}-{version}"`, app `"web"`,
image `"ghcr.io/x/web:v2.3.1"` yields `"web-v2.3.1"`, with the over-limit
variant preserving the `v2.3.1` suffix. -/
theorem C7_amended_container_name (template name img : String) (env : Option String) :
    (imageVersion "ghcr.io/x/web:v2.3.1" = "v2.3.1".data ∧
     imageVersion "nginx" = "latest".data ∧
     imageVersion "web:" = "latest".data ∧
     imageVersion "reg:5000/web:v1.2" = "5000/web".data) ∧
    (∀ c ∈ (buildContainerName template name img env).data, validNameChar c) ∧
    ((versionBranch (sanitizeName (substituteTemplate template name img env)) = false ∨
      (lastDashPart (sanitizeName (substituteTemplate template name img env))).length ≤ 61) →
      (buildContainerName template name img env).length ≤ 63 ∧
      ∀ c, (buildContainerName template name img env).data.head? = some c →
        dotDash c = false) ∧
    buildContainerName "{app}-{version}" "web" "ghcr.io/x/web:v2.3.1" (some "production") =
      "web-v2.3.1" ∧
    buildContainerName "{app}-{version}"
        "averyveryveryveryveryveryveryveryverylongapplicationnamegoeshere"
        "ghcr.io/x/web:v2.3.1" (some "production") =
      "averyveryveryveryveryveryveryveryverylongapplicationname-v2.3.1" := by
  refine ⟨by decide, ?_, ?_, by decide, by decide⟩
  · intro c hc
    exact truncateName_chars _ (sanitizeName_chars _) c hc
  · intro hcond
    exact truncateName_bounded _ (sanitizeName_head _) hcond

/-- Closed instance of `C7_amended_container_name`: the sanitization bound
holds at a small concrete input. -/
theorem C7_amended_container_name_witness :
    (buildContainerName "{app}" "web" "nginx:latest" none).length ≤ 63 ∧
    (∀ c, (buildContainerName "{app}" "web" "nginx:latest" none).data.head? = some c →
      dotDash c = false) :=
  (C7_amended_container_name "{app}" "web" "nginx:latest" none).2.2.1 (Or.inl (by decide))

end Dokploy
